import Mathlib

/-!
Verification development for the request-forwarding engine of the
vulners-proxy-go repository.

The Go sources are shallowly embedded:

* `http.Header` and `url.Values` (Go maps from strings to string slices)
  become association lists `HMap` / `QMap`; map assignment, lookup and
  `textproto` canonicalisation are modelled explicitly.
* Go strings are modelled as Lean `String`s; the relevant inputs are byte
  strings and the code only case-folds ASCII letters, so `Char.toLower` /
  `Char.toUpper` (which fold exactly ASCII) match the source's behaviour.
* Fallible operations return `Option` / `Except`.

Embedded functions keep the names of the Go functions they translate
(`filterRequestHeaders`, `filterResponseHeaders`, `resolveAPIKey`,
`buildUpstreamURL`, `mapError`, `sanitizeError`, ...), all from
`internal/service/proxy.go` and `internal/handler/proxy.go`.
-/

set_option maxHeartbeats 1000000

/-! ## Header maps (`net/http.Header`, `net/textproto`) -/

/-- `net/textproto.validHeaderFieldByte`: RFC 7230 token characters. -/
def validHeaderFieldChar (c : Char) : Bool :=
  ('0' ≤ c && c ≤ '9') || ('a' ≤ c && c ≤ 'z') || ('A' ≤ c && c ≤ 'Z') ||
  c == '!' || c == '#' || c == '$' || c == '%' || c == '&' || c == '\'' ||
  c == '*' || c == '+' || c == '-' || c == '.' || c == '^' || c == '_' ||
  c == '\x60' || c == '|' || c == '~'

/-- The case-normalising loop of `textproto.CanonicalMIMEHeaderKey`: upper-case
a letter at the start and after each `'-'`, lower-case every other letter. -/
def canonChars : Bool → List Char → List Char
  | _, [] => []
  | up, c :: cs => (if up then c.toUpper else c.toLower) :: canonChars (c == '-') cs

/-- `http.CanonicalHeaderKey` / `textproto.CanonicalMIMEHeaderKey`: if every
character is a valid header-field byte, canonicalise the casing, otherwise
return the key unchanged. -/
def canonicalHeaderKey (s : String) : String :=
  if s.data.all validHeaderFieldChar then String.mk (canonChars true s.data) else s

/-- A Go `map[string][]string` (`http.Header`, `url.Values`), as an
association list.  Go maps have unique keys; iteration order is
unspecified there and is fixed to list order here. -/
abbrev HMap := List (String × List String)

/-- Go map assignment `m[k] = v`: replaces the binding for `k`. -/
def hset (m : HMap) (k : String) (v : List String) : HMap :=
  m.filter (fun p => p.1 != k) ++ [(k, v)]

/-- Go map read `m[k]` as an `Option`. -/
def hlookup (m : HMap) (k : String) : Option (List String) :=
  (m.find? (fun p => p.1 == k)).map (fun p => p.2)

/-- The key set of a header map. -/
def hkeys (m : HMap) : List String := m.map (fun p => p.1)

/-- `http.Header.Values`: canonicalise the lookup key, then read the map
(missing keys give the empty slice). -/
def headerValues (m : HMap) (k : String) : List String :=
  (hlookup m (canonicalHeaderKey k)).getD []

/-- `http.Header.Get`: first value for the canonicalised key, or `""`. -/
def headerGet (m : HMap) (k : String) : String :=
  match headerValues m k with
  | [] => ""
  | v :: _ => v

/-- `http.Header.Set`: store a single value under the canonicalised key. -/
def headerSet (m : HMap) (k v : String) : HMap :=
  hset m (canonicalHeaderKey k) [v]

/-- Lower-case a string character-wise (Go `strings.ToLower` on the ASCII
inputs relevant here). -/
def strLower (s : String) : String := String.mk (s.data.map Char.toLower)

/-! ## `internal/service/proxy.go`: constants -/

/-- `allowedUpstreamHosts` (proxy.go line 21). -/
def allowedUpstreamHosts : List String := ["vulners.com"]

/-- `forwardableRequestHeaders` (proxy.go line 26). -/
def forwardableRequestHeaders : List String :=
  ["Accept", "Accept-Encoding", "Accept-Language", "Content-Type", "Content-Length"]

/-- `forwardableResponseHeaders` (proxy.go line 35). -/
def forwardableResponseHeaders : List String :=
  ["Content-Type", "Content-Length", "Content-Encoding", "Cache-Control", "Date", "X-Request-Id"]

/-- `userAgent` (proxy.go line 44). -/
def userAgent : String := "vulners-proxy-go/1.0"

/-! ## `internal/service/proxy.go`: header filters and credential resolver -/

/-- `filterRequestHeaders` (proxy.go lines 139-154): copy the allow-listed
request headers, copy `X-Vulners-*` headers, then force `User-Agent`. -/
def filterRequestHeaders (src : HMap) : HMap :=
  let dst : HMap := []
  let dst := forwardableRequestHeaders.foldl
    (fun d key =>
      let vals := headerValues src key
      if vals.length > 0 then hset d (canonicalHeaderKey key) vals else d) dst
  let dst := src.foldl
    (fun d p =>
      if "x-vulners-".data.isPrefixOf (strLower p.1).data then
        hset d (canonicalHeaderKey p.1) p.2
      else d) dst
  headerSet dst "User-Agent" userAgent

/-- `filterResponseHeaders` (proxy.go lines 156-164): keep exactly the
headers whose canonical name is in the response allow-set. -/
def filterResponseHeaders (src : HMap) : HMap :=
  src.foldl
    (fun dst p =>
      if forwardableResponseHeaders.contains (canonicalHeaderKey p.1) then hset dst p.1 p.2
      else dst) []

/-- `resolveAPIKey` (proxy.go lines 118-123): the configured key wins;
otherwise fall back to the `X-Api-Key` request header. -/
def resolveAPIKey (cfgKey : String) (header : HMap) : String :=
  if cfgKey != "" then cfgKey else headerGet header "X-Api-Key"

/-! ## `net/url`: query values, escaping, and a URL model

`url.Values` is the same Go map type as `http.Header`. -/

/-- `url.Values`: Go `map[string][]string`. -/
abbrev QMap := HMap

/-- Unreserved characters (kept verbatim by both query and path escaping):
ASCII alphanumerics and `- _ . ~` (`net/url.shouldEscape`). -/
def isUnreservedChar (c : Char) : Bool :=
  ('0' ≤ c && c ≤ '9') || ('a' ≤ c && c ≤ 'z') || ('A' ≤ c && c ≤ 'Z') ||
  c == '-' || c == '_' || c == '.' || c == '~'

/-- Upper-case hex digit, as produced by `net/url`'s percent-encoder. -/
def hexUpper (n : Nat) : Char := "0123456789ABCDEF".data.getD n '0'

/-- `url.QueryEscape` on one byte: unreserved kept, space becomes `'+'`,
everything else percent-encoded.  Characters are treated as bytes; the
inputs of interest are byte strings. -/
def queryEscapeChar (c : Char) : List Char :=
  if isUnreservedChar c then [c]
  else if c == ' ' then ['+']
  else ['%', hexUpper (c.toNat / 16 % 16), hexUpper (c.toNat % 16)]

/-- `url.QueryEscape`. -/
def queryEscape (s : String) : String := String.mk ((s.data.map queryEscapeChar).flatten)

/-- `net/url.shouldEscape` in path mode keeps, besides unreserved characters,
the sub-delimiters `$ & + , / : ; = @` (only `'?'` of that group is escaped). -/
def pathEscapeChar (c : Char) : List Char :=
  if isUnreservedChar c then [c]
  else if c == '$' || c == '&' || c == '+' || c == ',' || c == '/' || c == ':' ||
          c == ';' || c == '=' || c == '@' then [c]
  else ['%', hexUpper (c.toNat / 16 % 16), hexUpper (c.toNat % 16)]

/-- `URL.EscapedPath` for a URL whose `RawPath` is unset: escape the decoded
path in path mode. -/
def pathEscape (s : String) : String := String.mk ((s.data.map pathEscapeChar).flatten)

/-- Byte-lexicographic string order (`sort.Strings` compares byte-wise;
UTF-8 byte order coincides with code-point order). -/
def strListLe : List Char → List Char → Bool
  | [], _ => true
  | _ :: _, [] => false
  | a :: as, b :: bs =>
    if a.toNat < b.toNat then true
    else if b.toNat < a.toNat then false
    else strListLe as bs

/-- `a ≤ b` on strings, byte-lexicographically. -/
def strLe (a b : String) : Bool := strListLe a.data b.data

/-- Insert into an ascending list. -/
def insertSorted (x : String) : List String → List String
  | [] => [x]
  | y :: ys => if strLe x y then x :: y :: ys else y :: insertSorted x ys

/-- Ascending sort (`sort.Strings`; the sorted keys of a Go map are unique,
so any sorting algorithm yields this result). -/
def sortStrings (l : List String) : List String := l.foldr insertSorted []

/-- `url.Values.Encode`: sort the keys byte-lexicographically, then emit
`k=v` pairs (both query-escaped) joined by `&`, values in slice order. -/
def valuesEncode (q : QMap) : String :=
  let ks := sortStrings (q.map Prod.fst)
  String.intercalate "&"
    ((ks.map (fun k => ((hlookup q k).getD []).map (fun v => queryEscape k ++ "=" ++ queryEscape v))).flatten)

/-- The `url.URL` fields used by this program (no user info, fragment or
opaque part ever arises here). -/
structure GoURL where
  scheme : String
  host : String
  path : String
  rawQuery : String
deriving DecidableEq, Repr

/-- `url.URL.String` for a URL with a scheme and a host (the shape produced
by the validated base URL): `scheme://host` + escaped path (a `/` is
inserted before a relative path) + `?rawQuery` when non-empty. -/
def urlString (u : GoURL) : String :=
  let p := pathEscape u.path
  let p := if p ≠ "" ∧ ¬ "/".data.isPrefixOf p.data ∧ u.host ≠ "" then "/" ++ p else p
  u.scheme ++ "://" ++ u.host ++ p ++ (if u.rawQuery ≠ "" then "?" ++ u.rawQuery else "")

/-- `buildUpstreamURL` (proxy.go lines 125-137): copy the base URL by value,
replace the path, copy every inbound query parameter, then
`q.Set("apiKey", apiKey)` and encode. -/
def buildUpstreamURL (baseURL : GoURL) (path : String) (query : QMap) (apiKey : String) : String :=
  let u := { baseURL with path := path }
  let q : QMap := query.foldl (fun q p => hset q p.1 p.2) []
  let q := hset q "apiKey" [apiKey]
  let u := { u with rawQuery := valuesEncode q }
  urlString u

/-! ## `net/url` parsing (model) -/

/-- Value of a hex digit. -/
def hexVal (c : Char) : Option Nat :=
  if '0' ≤ c ∧ c ≤ '9' then some (c.toNat - 48)
  else if 'a' ≤ c ∧ c ≤ 'f' then some (c.toNat - 87)
  else if 'A' ≤ c ∧ c ≤ 'F' then some (c.toNat - 55)
  else none

/-- `url.unescape`: decode `%XX` (failing on malformed escapes); in
query-component mode `'+'` decodes to a space, in path mode it is kept. -/
def unescapeChars (plusToSpace : Bool) : List Char → Option (List Char)
  | [] => some []
  | '%' :: c1 :: c2 :: rest =>
    match hexVal c1, hexVal c2, unescapeChars plusToSpace rest with
    | some h1, some h2, some r => some (Char.ofNat (h1 * 16 + h2) :: r)
    | _, _, _ => none
  | '%' :: _ :: [] => none
  | '%' :: [] => none
  | '+' :: rest => (unescapeChars plusToSpace rest).map
      (fun r => (if plusToSpace then ' ' else '+') :: r)
  | c :: rest => (unescapeChars plusToSpace rest).map (fun r => c :: r)

/-- Split at the first occurrence of `c`: `(before, after)`; `after` is empty
when `c` does not occur. -/
def splitFirst : List Char → Char → List Char × List Char
  | [], _ => ([], [])
  | x :: xs, c =>
    if x == c then ([], xs)
    else
      let (a, b) := splitFirst xs c
      (x :: a, b)

/-- Characters allowed inside a URL scheme after the first letter. -/
def isSchemeChar (c : Char) : Bool :=
  ('a' ≤ c && c ≤ 'z') || ('A' ≤ c && c ≤ 'Z') || ('0' ≤ c && c ≤ '9') ||
  c == '+' || c == '-' || c == '.'

/-- `net/url.getScheme`: `none` is the parse error for a leading colon
("missing protocol scheme"); otherwise split off `scheme:` when the string
starts with a letter followed by scheme characters and a colon, else no
scheme.  The scheme is lower-cased as in `url.Parse`. -/
def splitScheme (l : List Char) : Option (List Char × List Char) :=
  match l with
  | [] => some ([], [])
  | c :: _ =>
    if c == ':' then none
    else if ('a' ≤ c && c ≤ 'z') || ('A' ≤ c && c ≤ 'Z') then
      let pre := l.takeWhile isSchemeChar
      match l.drop pre.length with
      | ':' :: rest => some (pre.map Char.toLower, rest)
      | _ => some ([], l)
    else some ([], l)

/-- Model of `url.Parse`, restricted to the URL shapes this program handles:
control characters and a leading colon are parse errors; the fragment is
dropped; `scheme://host` splits off an authority (no user-info or IP-literal
validation); the part before `'?'` is the percent-decoded path (malformed
escapes are parse errors); an absent `://` leaves the host empty. -/
def parseURL (s : String) : Option GoURL :=
  let l0 := s.data
  if l0.any (fun c => c.toNat < 32 || c.toNat == 127) then none
  else
    let l1 := (splitFirst l0 '#').1
    match splitScheme l1 with
    | none => none
    | some (scheme, rest) =>
      let (beforeQ, rawQ) := splitFirst rest '?'
      let (host, rawPath) :=
        if ['/', '/'].isPrefixOf beforeQ then
          let afterSlashes := beforeQ.drop 2
          (afterSlashes.takeWhile (fun c => c != '/'), afterSlashes.dropWhile (fun c => c != '/'))
        else ([], beforeQ)
      match unescapeChars false rawPath with
      | none => none
      | some path => some ⟨String.mk scheme, String.mk host, String.mk path, String.mk rawQ⟩

/-- Append one decoded query value (`m[key] = append(m[key], value)`). -/
def qappend (q : QMap) (k v : String) : QMap :=
  if q.any (fun p => p.1 == k) then q.map (fun p => if p.1 == k then (p.1, p.2 ++ [v]) else p)
  else q ++ [(k, [v])]

/-- One `key=value` segment of `url.ParseQuery`; `none` is the error case
(semicolon separator, malformed escape). -/
def parseQuerySeg (q : QMap) (seg : List Char) : Option QMap :=
  if seg.contains ';' then none
  else if seg.isEmpty then some q
  else
    let (k, v) := splitFirst seg '='
    match unescapeChars true k, unescapeChars true v with
    | some k1, some v1 => some (qappend q (String.mk k1) (String.mk v1))
    | _, _ => none

/-- `url.ParseQuery` (the Go function records the first error but keeps
parsing; on the well-formed strings produced by `Values.Encode` the two
behaviours agree, and this model stops at the first error). -/
def parseQuery (s : String) : Option QMap :=
  (s.data.splitOn '&').foldlM parseQuerySeg []

/-! ## Startup validation (`config.validate` lines 132-142, `NewProxyService`) -/

/-- Digit test for port stripping. -/
def isDigitChar (c : Char) : Bool := '0' ≤ c && c ≤ '9'

/-- `url.URL.Hostname`: strip a valid `:port` suffix (all digits after the
last colon) and surrounding brackets. -/
def hostnameOf (host : String) : String :=
  let l := host.data
  let afterRev := l.reverse.takeWhile (fun c => c != ':')
  let stripped :=
    if afterRev.length < l.length ∧ afterRev.all isDigitChar then
      l.take (l.length - afterRev.length - 1)
    else l
  let noBr :=
    if stripped.head? = some '[' ∧ stripped.getLast? = some ']' then
      (stripped.drop 1).dropLast
    else stripped
  String.mk noBr

/-- `NewProxyService` (proxy.go lines 55-71): parse the configured base URL,
reject hostnames outside `allowedUpstreamHosts`, and keep the parsed URL. -/
def newProxyService (baseURL : String) : Except String GoURL :=
  match parseURL baseURL with
  | none => .error "parse upstream base_url"
  | some u =>
    if allowedUpstreamHosts.contains (hostnameOf u.host) then .ok u
    else .error "upstream host is not in the allowlist"

/-- The base-URL checks of `config.validate` (config.go lines 132-142):
required, parseable, and HTTPS. -/
def validateBaseURL (s : String) : Except String Unit :=
  if s = "" then .error "upstream.base_url is required"
  else
    match parseURL s with
    | none => .error "upstream.base_url is not a valid URL"
    | some u => if u.scheme ≠ "https" then .error "upstream.base_url must use HTTPS" else .ok ()

/-- The startup validation pipeline for the base URL: `config.Load` runs
`validate` before the service is constructed with `NewProxyService`. -/
def startupBaseURL (s : String) : Except String GoURL :=
  match validateBaseURL s with
  | .error e => .error e
  | .ok _ => newProxyService s

/-! ## Go errors and the handler's error classifier (`internal/handler/proxy.go`) -/

/-- The Go error values flowing through this program: the
`ErrMissingAPIKey` sentinel, the two `context` sentinels, `*net.DNSError`,
`*url.Error` and `*net.OpError` (both wrap an inner error), `fmt.Errorf`
`%w`-wrapping, and any other leaf error. -/
inductive GoErr where
  | errMissingAPIKey : GoErr
  | deadlineExceeded : GoErr
  | canceled : GoErr
  | dnsError (name : String) : GoErr
  | urlError (op u : String) (inner : GoErr) : GoErr
  | opError (op : String) (inner : GoErr) : GoErr
  | wrapped (msg : String) (inner : GoErr) : GoErr
  | plain (msg : String) : GoErr
deriving DecidableEq, Repr

/-- `errors.Is` against a sentinel: equality, else unwrap. -/
def errIs : GoErr → GoErr → Bool
  | e, t =>
    e == t ||
      match e with
      | .urlError _ _ i => errIs i t
      | .opError _ i => errIs i t
      | .wrapped _ i => errIs i t
      | _ => false

/-- `errors.As` with target `**net.DNSError`. -/
def errAsDNS : GoErr → Bool
  | .dnsError _ => true
  | .urlError _ _ i => errAsDNS i
  | .opError _ i => errAsDNS i
  | .wrapped _ i => errAsDNS i
  | _ => false

/-- `errors.As` with target `**url.Error`. -/
def errAsURL : GoErr → Bool
  | .urlError _ _ _ => true
  | .opError _ i => errAsURL i
  | .wrapped _ i => errAsURL i
  | _ => false

/-- `mapError` (handler/proxy.go lines 79-120), as the pair of client status
code and fixed JSON error message it writes. -/
def mapError (e : GoErr) : Nat × String :=
  if errIs e .errMissingAPIKey then
    (401, "API key required: set api_key in config or send X-Api-Key header")
  else if errIs e .deadlineExceeded then (504, "upstream request timed out")
  else if errIs e .canceled then (502, "client disconnected")
  else if errAsDNS e then (502, "upstream host unreachable")
  else if errAsURL e then (502, "upstream connection failed")
  else (502, "upstream request failed")

/-- The six fixed client-visible messages of `mapError`. -/
def mapErrorMessages : List String :=
  ["API key required: set api_key in config or send X-Api-Key header",
   "upstream request timed out", "client disconnected", "upstream host unreachable",
   "upstream connection failed", "upstream request failed"]

/-! ## The forwarding operation (`Forward`, proxy.go lines 94-115) -/

/-- `model.ProxyRequest` (the fields `Forward` reads). -/
structure ProxyReq where
  method : String
  path : String
  query : QMap
  header : HMap
deriving DecidableEq, Repr

/-- `model.ProxyResponse` (status and headers; the body is an opaque stream). -/
structure ProxyResp where
  statusCode : Nat
  header : HMap
deriving DecidableEq, Repr

/-- `Forward` (proxy.go lines 94-115), with the upstream transport
`client.DoStream` abstracted as a function argument.  The second component
records the URL of every upstream call actually made, so "no network call
was attempted" is the trace being empty. -/
def Forward (cfgKey : String) (baseURL : GoURL) (pr : ProxyReq)
    (doStream : String → HMap → Except GoErr ProxyResp) :
    Except GoErr ProxyResp × List String :=
  let apiKey := resolveAPIKey cfgKey pr.header
  if apiKey == "" then (.error .errMissingAPIKey, [])
  else
    let upstreamURL := buildUpstreamURL baseURL pr.path pr.query apiKey
    let header := filterRequestHeaders pr.header
    match doStream upstreamURL header with
    | .error e => (.error (.wrapped "forward to upstream" e), [upstreamURL])
    | .ok resp => (.ok { resp with header := filterResponseHeaders resp.header }, [upstreamURL])

/-! ## The streaming responder (`Handle`, handler/proxy.go lines 37-77) -/

/-- The client-side response writer: headers added so far and the status
line, which is written at most once and cannot be revised. -/
structure RespWriter where
  header : HMap
  status : Option Nat
deriving DecidableEq, Repr

/-- `http.Header.Add`: append a value under the canonicalised key. -/
def headerAdd (m : HMap) (k v : String) : HMap :=
  hset m (canonicalHeaderKey k) (((hlookup m (canonicalHeaderKey k)).getD []) ++ [v])

/-- The success path of `Handle` after `Forward` returns (handler/proxy.go
lines 53-76): copy the filtered headers, write the status code, then stream
the body.  `copyResult` is the outcome of `io.Copy`; on failure the error is
only logged.  Returns the writer state, the log entries, and the handler's
return value. -/
def handleStream (resp : ProxyResp) (copyResult : Except String Nat) :
    RespWriter × List String × Except String Unit :=
  let w : RespWriter := { header := [], status := none }
  let w := resp.header.foldl
    (fun w p => p.2.foldl (fun w v => { w with header := headerAdd w.header p.1 v }) w) w
  let w := { w with status := some resp.statusCode }
  match copyResult with
  | .error e => (w, ["streaming response body: " ++ e], .ok ())
  | .ok _ => (w, [], .ok ())

/-! ## `sanitizeError` (handler/proxy.go lines 19-20, 122-125)

The regular expression is `(?i)(apiKey=)[^&\s"]+`, replaced by
`${1}[REDACTED]`.  In RE2, `\s` is `[\t\n\f\r ]`, so a credential token is a
non-empty run of characters outside `& " \t \n \f \r space`; the scan is
leftmost, non-overlapping, with the greedy `+` taking the maximal run. -/

/-- A character that can be part of a credential token (`[^&\s"]`). -/
def isTokenChar (c : Char) : Bool :=
  !(c == '&' || c == '"' || c == '\t' || c == '\n' || c == '\x0c' || c == '\r' || c == ' ')

/-- The literal `apikey=` that `(?i)apiKey=` matches up to case. -/
def apikeyLit : List Char := ['a', 'p', 'i', 'k', 'e', 'y', '=']

/-- The replacement marker `[REDACTED]` (the `${1}` back-reference keeps the
matched `apiKey=` text). -/
def redactedMarker : List Char := ['[', 'R', 'E', 'D', 'A', 'C', 'T', 'E', 'D', ']']

/-- Does the regex match at the head of `l`? -/
def matchesAt (l : List Char) : Bool :=
  (l.take 7).map Char.toLower == apikeyLit &&
    (match l.drop 7 with
     | [] => false
     | c :: _ => isTokenChar c)

/-- The scan of `apiKeyPattern.ReplaceAllString(s, "${1}[REDACTED]")`,
structurally recursive on a fuel bound (any fuel at least the length of the
list yields the scan's value; see `sanitizeFuel_irrel`): at a match, keep
the matched `apiKey=` text, emit the marker, drop the token, continue after
it; otherwise move one character. -/
def sanitizeFuel : Nat → List Char → List Char
  | _, [] => []
  | 0, l => l
  | fuel + 1, c :: cs =>
    if matchesAt (c :: cs) then
      (c :: cs).take 7 ++ redactedMarker ++
        sanitizeFuel fuel (((c :: cs).drop 7).dropWhile isTokenChar)
    else
      c :: sanitizeFuel fuel cs

/-- `apiKeyPattern.ReplaceAllString(s, "${1}[REDACTED]")`: the leftmost,
non-overlapping, greedy replacement scan. -/
def sanitizeChars (l : List Char) : List Char := sanitizeFuel l.length l

/-- `sanitizeError` (handler/proxy.go lines 122-125). -/
def sanitizeError (msg : String) : String := String.mk (sanitizeChars msg.data)

/-- Fuel-bounded credential scan (see `noRawFuel_irrel`). -/
def noRawFuel : Nat → List Char → Bool
  | _, [] => true
  | 0, _ => true
  | fuel + 1, c :: cs =>
    if matchesAt (c :: cs) then
      (((c :: cs).drop 7).takeWhile isTokenChar == redactedMarker) &&
        noRawFuel fuel (((c :: cs).drop 7).dropWhile isTokenChar)
    else
      noRawFuel fuel cs

/-- Scan a string for credential-shaped fragments (the same leftmost,
non-overlapping scan the regex performs) and check that every token sitting
after a case-insensitive `apikey=` is exactly the redaction marker. -/
def noRawCredential (l : List Char) : Bool := noRawFuel l.length l

/-! ## Heap-instrumented forwarding (frame property)

Go maps are heap references; to state that `Forward` never mutates the
inbound request's maps or the service's parsed base URL, the same source
lines are embedded once more in store-passing style: every `make` is an
allocation and every map assignment is a write to a reference. -/

/-- A store of map references plus the service's `baseURL` field. -/
structure Store where
  maps : Nat → HMap
  next : Nat
  base : GoURL

/-- `make(http.Header)` / `make(url.Values)`: allocate a fresh empty map. -/
def alloc (st : Store) : Store × Nat :=
  ({ st with maps := fun i => if i == st.next then [] else st.maps i, next := st.next + 1 },
   st.next)

/-- Map assignment through a reference. -/
def swrite (st : Store) (r : Nat) (m : HMap) : Store :=
  { st with maps := fun i => if i == r then m else st.maps i }

/-- `filterRequestHeaders` in store-passing style: all writes target the
freshly allocated `dst`. -/
def filterRequestHeadersS (st : Store) (srcRef : Nat) : Store × Nat :=
  let st1 := (alloc st).1
  let dst := (alloc st).2
  let st2 := forwardableRequestHeaders.foldl
    (fun st key =>
      if (headerValues (st.maps srcRef) key).length > 0 then
        swrite st dst (hset (st.maps dst) (canonicalHeaderKey key) (headerValues (st.maps srcRef) key))
      else st) st1
  let st3 := (st2.maps srcRef).foldl
    (fun st p =>
      if "x-vulners-".data.isPrefixOf (strLower p.1).data then
        swrite st dst (hset (st.maps dst) (canonicalHeaderKey p.1) p.2)
      else st) st2
  let st4 := swrite st3 dst (hset (st3.maps dst) (canonicalHeaderKey "User-Agent") [userAgent])
  (st4, dst)

/-- `filterResponseHeaders` in store-passing style (the upstream response's
header map arrives as a value from the transport). -/
def filterResponseHeadersS (st : Store) (src : HMap) : Store × Nat :=
  let st1 := (alloc st).1
  let dst := (alloc st).2
  let st2 := src.foldl
    (fun st p =>
      if forwardableResponseHeaders.contains (canonicalHeaderKey p.1) then
        swrite st dst (hset (st.maps dst) p.1 p.2)
      else st) st1
  (st2, dst)

/-- `buildUpstreamURL` in store-passing style: `u := *s.baseURL` is a value
copy, `q := make(url.Values)` allocates, and all writes target `q`. -/
def buildUpstreamURLS (st : Store) (path : String) (qryRef : Nat) (apiKey : String) :
    Store × String :=
  let u := { st.base with path := path }
  let st1 := (alloc st).1
  let q := (alloc st).2
  let st2 := (st1.maps qryRef).foldl (fun st p => swrite st q (hset (st.maps q) p.1 p.2)) st1
  let st3 := swrite st2 q (hset (st2.maps q) "apiKey" [apiKey])
  (st3, urlString { u with rawQuery := valuesEncode (st3.maps q) })

/-- `Forward` in store-passing style over the inbound request's header and
query references. -/
def ForwardS (st : Store) (cfgKey : String) (hdrRef qryRef : Nat) (path : String)
    (doStream : String → HMap → Except GoErr ProxyResp) : Store × Except GoErr ProxyResp :=
  let apiKey := resolveAPIKey cfgKey (st.maps hdrRef)
  if apiKey == "" then (st, .error .errMissingAPIKey)
  else
    let b := buildUpstreamURLS st path qryRef apiKey
    let f := filterRequestHeadersS b.1 hdrRef
    match doStream b.2 ((f.1).maps f.2) with
    | .error e => (f.1, .error (.wrapped "forward to upstream" e))
    | .ok resp =>
      let g := filterResponseHeadersS f.1 resp.header
      (g.1, .ok { resp with header := (g.1).maps g.2 })

/-! ## Helper lemmas: characters, canonical keys, header maps -/

theorem charToNat_ofNat (n : Nat) (h : n.isValidChar) : (Char.ofNat n).toNat = n := by
  simp only [Char.ofNat, h, dif_pos, Char.ofNatAux, Char.toNat]
  rfl

theorem toLower_toUpper (c : Char) : c.toUpper.toLower = c.toLower := by
  by_cases h : c.toNat ≥ 97 ∧ c.toNat ≤ 122
  · have h1 : c.toUpper = Char.ofNat (c.toNat - 32) := by
      unfold Char.toUpper
      rw [if_pos h]
    have hval : (c.toNat - 32).isValidChar := by
      unfold Nat.isValidChar
      omega
    have h2 : (Char.ofNat (c.toNat - 32)).toNat = c.toNat - 32 := charToNat_ofNat _ hval
    have h3 : (Char.ofNat (c.toNat - 32)).toLower = Char.ofNat (c.toNat - 32 + 32) := by
      unfold Char.toLower
      rw [h2, if_pos (by omega)]
    have h4 : c.toNat - 32 + 32 = c.toNat := by omega
    have h5 : c.toLower = c := by
      unfold Char.toLower
      rw [if_neg (by omega)]
    rw [h1, h3, h4, Char.ofNat_toNat, h5]
  · have h1 : c.toUpper = c := by
      unfold Char.toUpper
      rw [if_neg h]
    rw [h1]

theorem toLower_toLower (c : Char) : c.toLower.toLower = c.toLower := by
  by_cases h : c.toNat ≥ 65 ∧ c.toNat ≤ 90
  · have h1 : c.toLower = Char.ofNat (c.toNat + 32) := by
      unfold Char.toLower
      rw [if_pos h]
    have hval : (c.toNat + 32).isValidChar := by
      unfold Nat.isValidChar
      omega
    have h2 : (Char.ofNat (c.toNat + 32)).toNat = c.toNat + 32 := charToNat_ofNat _ hval
    have h3 : (Char.ofNat (c.toNat + 32)).toLower = Char.ofNat (c.toNat + 32) := by
      unfold Char.toLower
      rw [h2, if_neg (by omega)]
    rw [h1, h3]
  · have h1 : c.toLower = c := by
      unfold Char.toLower
      rw [if_neg h]
    rw [h1, h1]

theorem canonChars_map_toLower (b : Bool) (l : List Char) :
    (canonChars b l).map Char.toLower = l.map Char.toLower := by
  induction l generalizing b with
  | nil => rfl
  | cons c cs ih =>
    simp only [canonChars, List.map_cons, ih]
    by_cases h : b
    · simp [h, toLower_toUpper]
    · simp [h, toLower_toLower]

theorem strLower_canonicalHeaderKey (s : String) :
    strLower (canonicalHeaderKey s) = strLower s := by
  unfold canonicalHeaderKey strLower
  by_cases h : s.data.all validHeaderFieldChar
  · simp only [h, if_pos]
    rw [canonChars_map_toLower]
  · simp [h]

theorem hlookup_hset_self (m : HMap) (k : String) (v : List String) :
    hlookup (hset m k v) k = some v := by
  unfold hlookup hset
  rw [List.find?_append]
  have h1 : (m.filter (fun p => p.1 != k)).find? (fun p => p.1 == k) = none := by
    rw [List.find?_eq_none]
    intro p hp
    have := List.of_mem_filter hp
    simpa using this
  simp [h1]

theorem hlookup_hset_ne (m : HMap) (k k' : String) (v : List String) (h : k' ≠ k) :
    hlookup (hset m k v) k' = hlookup m k' := by
  unfold hlookup hset
  rw [List.find?_append]
  have h2 : List.find? (fun p => p.1 == k') [(k, v)] = none := by
    apply List.find?_eq_none.mpr
    intro p hp
    simp only [List.mem_singleton] at hp
    subst hp
    simp only [beq_eq_false_iff_ne, ne_eq, Bool.not_eq_true]
    intro hc
    exact h ((by simpa using hc : k = k')).symm
  rw [h2]
  have h3 : (m.filter (fun p => p.1 != k)).find? (fun p => p.1 == k') =
      m.find? (fun p => p.1 == k') := by
    induction m with
    | nil => rfl
    | cons p ps ih =>
      rw [List.filter_cons]
      by_cases hpk : (p.1 != k) = true
      · rw [if_pos hpk]
        cases hpe : (p.1 == k') with
        | true => rw [List.find?_cons, List.find?_cons, hpe]
        | false =>
          rw [List.find?_cons, List.find?_cons, hpe]
          exact ih
      · rw [if_neg hpk]
        have hpk' : p.1 = k := by simpa using hpk
        have hpe : (p.1 == k') = false := by
          simp only [beq_eq_false_iff_ne, ne_eq, hpk']
          exact fun hc => h hc.symm
        rw [List.find?_cons, hpe]
        exact ih
  rw [h3]
  cases m.find? (fun p => p.1 == k') <;> simp

theorem hkeys_hset (m : HMap) (k k' : String) (v : List String)
    (h : k' ∈ hkeys (hset m k v)) : k' = k ∨ k' ∈ hkeys m := by
  unfold hkeys hset at h
  rw [List.map_append, List.mem_append] at h
  rcases h with h | h
  · right
    rcases List.mem_map.mp h with ⟨p, hp, hpk⟩
    exact List.mem_map.mpr ⟨p, List.mem_of_mem_filter hp, hpk⟩
  · left
    simpa using h

theorem hlookup_mem_keys (m : HMap) (k : String) (v : List String)
    (h : hlookup m k = some v) : k ∈ hkeys m := by
  unfold hlookup at h
  cases hf : m.find? (fun p => p.1 == k) with
  | none => rw [hf] at h; simp at h
  | some p =>
    have hp := List.find?_some hf
    have hmem := List.mem_of_find?_eq_some hf
    have hk : p.1 = k := by simpa using hp
    exact hk ▸ List.mem_map.mpr ⟨p, hmem, rfl⟩

/-! ## Claim C3: configured shared key always wins -/

/-- C3: whenever the configured shared API key is non-empty, `resolveAPIKey`
returns it for every inbound header mapping, so the resolved credential is
independent of any header (including differing `X-Api-Key` values). -/
theorem resolveAPIKey_config_precedence (cfgKey : String) (hne : cfgKey ≠ "")
    (h1 h2 : HMap) :
    resolveAPIKey cfgKey h1 = cfgKey ∧
    resolveAPIKey cfgKey h1 = resolveAPIKey cfgKey h2 := by
  unfold resolveAPIKey
  have hb : (cfgKey != "") = true := by simpa using hne
  rw [hb]
  simp

/-- Witness for C3 at a concrete non-empty key and two header mappings
carrying different `X-Api-Key` values. -/
theorem resolveAPIKey_config_precedence_witness :
    resolveAPIKey "K1" [("X-Api-Key", ["A"])] = "K1" ∧
    resolveAPIKey "K1" [("X-Api-Key", ["A"])] = resolveAPIKey "K1" [("X-Api-Key", ["B"])] :=
  resolveAPIKey_config_precedence "K1" (by decide) [("X-Api-Key", ["A"])] [("X-Api-Key", ["B"])]

/-! ## Claim C4: missing credential fails before any upstream call -/

/-- C4: with an empty configured key and no `X-Api-Key` header, `Forward`
returns `ErrMissingAPIKey` with an empty upstream-call trace, and the
handler's classifier maps that error to status 401 with a non-empty fixed
message. -/
theorem forward_missing_credential (cfgKey : String) (baseURL : GoURL) (pr : ProxyReq)
    (doStream : String → HMap → Except GoErr ProxyResp)
    (hcfg : cfgKey = "") (hhdr : hlookup pr.header "X-Api-Key" = none) :
    Forward cfgKey baseURL pr doStream = (.error .errMissingAPIKey, []) ∧
    (mapError .errMissingAPIKey).1 = 401 ∧ (mapError .errMissingAPIKey).2 ≠ "" := by
  subst hcfg
  refine ⟨?_, by decide, by decide⟩
  unfold Forward resolveAPIKey headerGet headerValues
  have hck : canonicalHeaderKey "X-Api-Key" = "X-Api-Key" := by decide
  rw [hck, hhdr]
  simp

/-- Witness for C4: empty configured key, empty header map, and an upstream
that would answer 200 if it were ever called. -/
theorem forward_missing_credential_witness :
    Forward "" ⟨"https", "vulners.com", "", ""⟩ ⟨"GET", "/api/v3/search/lucene/", [], []⟩
        (fun _ _ => .ok ⟨200, []⟩) = (.error .errMissingAPIKey, []) ∧
    (mapError .errMissingAPIKey).1 = 401 ∧ (mapError .errMissingAPIKey).2 ≠ "" :=
  forward_missing_credential "" ⟨"https", "vulners.com", "", ""⟩
    ⟨"GET", "/api/v3/search/lucene/", [], []⟩ (fun _ _ => .ok ⟨200, []⟩) rfl (by decide)

/-! ## Claim C5: the error classifier's taxonomy and fixed messages -/

/-- C5: `mapError` realises the documented taxonomy — missing credential to
401, deadline to 504, cancellation/DNS/transport/other to 502 — and its
client-visible message is always one of six fixed strings, so raw upstream
error text never reaches the client. -/
theorem mapError_taxonomy (e : GoErr) :
    (errIs e .errMissingAPIKey = true →
      mapError e = (401, "API key required: set api_key in config or send X-Api-Key header")) ∧
    (errIs e .errMissingAPIKey = false → errIs e .deadlineExceeded = true →
      mapError e = (504, "upstream request timed out")) ∧
    (errIs e .errMissingAPIKey = false → errIs e .deadlineExceeded = false →
      errIs e .canceled = true → mapError e = (502, "client disconnected")) ∧
    (errIs e .errMissingAPIKey = false → errIs e .deadlineExceeded = false →
      errIs e .canceled = false → errAsDNS e = true →
      mapError e = (502, "upstream host unreachable")) ∧
    (errIs e .errMissingAPIKey = false → errIs e .deadlineExceeded = false →
      errIs e .canceled = false → errAsDNS e = false → errAsURL e = true →
      mapError e = (502, "upstream connection failed")) ∧
    (errIs e .errMissingAPIKey = false → errIs e .deadlineExceeded = false →
      errIs e .canceled = false → errAsDNS e = false → errAsURL e = false →
      mapError e = (502, "upstream request failed")) ∧
    (mapError e).2 ∈ mapErrorMessages ∧
    ((mapError e).1 = 401 ∨ (mapError e).1 = 502 ∨ (mapError e).1 = 504) := by
  unfold mapError
  split_ifs with hm hd hc hdns hurl <;>
    simp_all [mapErrorMessages]

/-- Witness for C5: a DNS failure wrapped the way `Forward` wraps transport
errors is classified as 502 "upstream host unreachable". -/
theorem mapError_taxonomy_witness :
    mapError (.wrapped "forward to upstream"
      (.urlError "Get" "https://vulners.com" (.opError "dial" (.dnsError "lookup vulners.com")))) =
      (502, "upstream host unreachable") :=
  (mapError_taxonomy _).2.2.2.1 (by decide) (by decide) (by decide) (by decide)

/-! ## Claim C8: a failed body copy is logged, never reclassified -/

/-- C8: once the status code and filtered headers are written, a failing
body copy leaves the handler returning success with the originally written
status and headers (identical to the successful-copy writer state); the
failure is only logged. -/
theorem handleStream_copy_failure (resp : ProxyResp) (e : String) (n : Nat) :
    (handleStream resp (.error e)).2.2 = .ok () ∧
    (handleStream resp (.error e)).1.status = some resp.statusCode ∧
    (handleStream resp (.error e)).1 = (handleStream resp (.ok n)).1 ∧
    (handleStream resp (.error e)).2.1 ≠ [] := by
  unfold handleStream
  simp

/-- Witness for C8 at a concrete 200 response and a concrete copy error. -/
theorem handleStream_copy_failure_witness :
    (handleStream ⟨200, [("Content-Type", ["application/json"])]⟩ (.error "broken pipe")).2.2
        = .ok () ∧
    (handleStream ⟨200, [("Content-Type", ["application/json"])]⟩ (.error "broken pipe")).1.status
        = some 200 ∧
    (handleStream ⟨200, [("Content-Type", ["application/json"])]⟩ (.error "broken pipe")).1
        = (handleStream ⟨200, [("Content-Type", ["application/json"])]⟩ (.ok 17)).1 ∧
    (handleStream ⟨200, [("Content-Type", ["application/json"])]⟩ (.error "broken pipe")).2.1
        ≠ [] :=
  handleStream_copy_failure ⟨200, [("Content-Type", ["application/json"])]⟩ "broken pipe" 17

/-! ## Claim C1: request header filtering -/

theorem foldl_keys_inv {α : Type} (P : String → Prop) (f : HMap → α → HMap) (l : List α)
    (hf : ∀ d a, a ∈ l → ∀ k, k ∈ hkeys (f d a) → k ∈ hkeys d ∨ P k) (d : HMap)
    (hd : ∀ k, k ∈ hkeys d → P k) : ∀ k, k ∈ hkeys (l.foldl f d) → P k := by
  induction l generalizing d with
  | nil => exact hd
  | cons a l ih =>
    intro k hk
    refine ih (fun d a ha => hf d a (List.mem_cons_of_mem _ ha)) (f d a) ?_ k hk
    intro k' hk'
    rcases hf d a (List.mem_cons_self _ _) k' hk' with h | h
    · exact hd k' h
    · exact h

theorem filterRequestHeaders_keys (src : HMap) (k : String)
    (hk : k ∈ hkeys (filterRequestHeaders src)) :
    strLower k ∈ forwardableRequestHeaders.map strLower ∨
    "x-vulners-".data.isPrefixOf (strLower k).data = true ∨ k = "User-Agent" := by
  unfold filterRequestHeaders headerSet at hk
  rcases hkeys_hset _ _ _ _ hk with h | h
  · right; right
    rw [h]
    decide
  · revert h
    apply foldl_keys_inv
    · intro d p _ k' hk'
      by_cases hc : "x-vulners-".data.isPrefixOf (strLower p.1).data
      · rw [if_pos hc] at hk'
        rcases hkeys_hset _ _ _ _ hk' with h | h
        · right
          right; left
          rw [h, strLower_canonicalHeaderKey]
          exact hc
        · exact Or.inl h
      · rw [if_neg hc] at hk'
        exact Or.inl hk'
    · apply foldl_keys_inv
      · intro d key hkey k' hk'
        by_cases hc : (headerValues src key).length > 0
        · rw [if_pos hc] at hk'
          rcases hkeys_hset _ _ _ _ hk' with h | h
          · right
            left
            rw [h, strLower_canonicalHeaderKey]
            exact List.mem_map.mpr ⟨key, hkey, rfl⟩
          · exact Or.inl h
        · rw [if_neg hc] at hk'
          exact Or.inl hk'
      · intro k' hk'
        simp [hkeys] at hk'

/-- C1: every outbound header name produced by `filterRequestHeaders` either
case-insensitively matches the fixed request allow-set, case-insensitively
starts with the vendor prefix `x-vulners-`, or is the identification header
`User-Agent`, which is always bound to exactly `["vulners-proxy-go/1.0"]`;
consequently no case variant of Authorization, Cookie, X-Api-Key or a
hop-by-hop header ever appears in the output. -/
theorem filterRequestHeaders_allowlist (src : HMap) :
    (∀ k, k ∈ hkeys (filterRequestHeaders src) →
        strLower k ∈ forwardableRequestHeaders.map strLower ∨
        "x-vulners-".data.isPrefixOf (strLower k).data = true ∨
        k = "User-Agent") ∧
    hlookup (filterRequestHeaders src) "User-Agent" = some [userAgent] ∧
    (∀ k, k ∈ hkeys (filterRequestHeaders src) →
        strLower k ∉ (["authorization", "cookie", "x-api-key", "connection", "keep-alive",
          "proxy-authenticate", "proxy-authorization", "te", "trailer",
          "transfer-encoding", "upgrade"] : List String)) := by
  refine ⟨filterRequestHeaders_keys src, ?_, ?_⟩
  · unfold filterRequestHeaders headerSet
    have hua : canonicalHeaderKey "User-Agent" = "User-Agent" := by decide
    rw [hua]
    exact hlookup_hset_self _ _ _
  · intro k hk hbad
    rcases filterRequestHeaders_keys src k hk with h | h | h
    · have hall : forwardableRequestHeaders.map strLower =
          ["accept", "accept-encoding", "accept-language", "content-type", "content-length"] := by
        decide
      rw [hall] at h
      simp only [List.mem_cons, List.not_mem_nil, or_false] at h
      rcases h with h | h | h | h | h <;> rw [h] at hbad <;> exact absurd hbad (by decide)
    · simp only [List.mem_cons, List.not_mem_nil, or_false] at hbad
      rcases hbad with hb | hb | hb | hb | hb | hb | hb | hb | hb | hb | hb <;>
        rw [hb] at h <;> exact absurd h (by decide)
    · rw [h] at hbad
      exact absurd hbad (by decide)

/-- Witness for C1 on a concrete inbound mapping carrying Authorization,
Cookie and a vendor header. -/
theorem filterRequestHeaders_allowlist_witness :
    hlookup (filterRequestHeaders
        [("Authorization", ["Bearer secret"]), ("Cookie", ["session=1"]),
         ("X-Vulners-Token", ["t"])]) "User-Agent" = some [userAgent] ∧
    strLower "X-Vulners-Token" ∉ (["authorization", "cookie", "x-api-key", "connection",
      "keep-alive", "proxy-authenticate", "proxy-authorization", "te", "trailer",
      "transfer-encoding", "upgrade"] : List String) :=
  ⟨(filterRequestHeaders_allowlist
      [("Authorization", ["Bearer secret"]), ("Cookie", ["session=1"]),
       ("X-Vulners-Token", ["t"])]).2.1,
   (filterRequestHeaders_allowlist
      [("Authorization", ["Bearer secret"]), ("Cookie", ["session=1"]),
       ("X-Vulners-Token", ["t"])]).2.2 "X-Vulners-Token" (by decide)⟩

/-! ## Claim C6: response header filtering is a projection -/

theorem hset_fresh (m : HMap) (k : String) (v : List String) (h : k ∉ hkeys m) :
    hset m k v = m ++ [(k, v)] := by
  unfold hset
  congr 1
  apply List.filter_eq_self.mpr
  intro p hp
  simp only [bne_iff_ne, ne_eq]
  intro hc
  exact h (hc ▸ List.mem_map.mpr ⟨p, hp, rfl⟩)

theorem foldl_hset_filter (pred : String × List String → Bool) (src : HMap)
    (hnd : (hkeys src).Nodup) (dst : HMap)
    (hdisj : ∀ k, k ∈ hkeys dst → k ∉ hkeys src) :
    src.foldl (fun d p => if pred p then hset d p.1 p.2 else d) dst
      = dst ++ src.filter pred := by
  induction src generalizing dst with
  | nil => simp
  | cons p ps ih =>
    have hcons : hkeys (p :: ps) = p.1 :: hkeys ps := rfl
    rw [hcons] at hnd
    have hhd : p.1 ∉ hkeys ps := (List.nodup_cons.mp hnd).1
    have hnd' : (hkeys ps).Nodup := (List.nodup_cons.mp hnd).2
    rw [List.foldl_cons, List.filter_cons]
    by_cases hp : pred p = true
    · rw [if_pos hp, if_pos hp]
      have hfresh : p.1 ∉ hkeys dst := by
        intro hc
        exact (hdisj p.1 hc) (hcons ▸ List.mem_cons_self _ _)
      have hstep : hset dst p.1 p.2 = dst ++ [p] := by
        rw [hset_fresh dst p.1 p.2 hfresh]
      rw [hstep, ih hnd' (dst ++ [p]) ?_, List.append_assoc]
      · rfl
      · intro k hk
        unfold hkeys at hk
        rw [List.map_append, List.mem_append] at hk
        rcases hk with hk | hk
        · intro hc
          exact (hdisj k hk) (hcons ▸ List.mem_cons_of_mem _ hc)
        · simp only [List.map_cons, List.map_nil, List.mem_singleton] at hk
          rw [hk]
          exact hhd
    · rw [if_neg hp, if_neg hp]
      refine ih hnd' dst ?_
      intro k hk hc
      exact (hdisj k hk) (hcons ▸ List.mem_cons_of_mem _ hc)

theorem hlookup_filter_nodup (pred : String × List String → Bool) (src : HMap)
    (hnd : (hkeys src).Nodup) (k : String) (v : List String)
    (h : hlookup (src.filter pred) k = some v) : hlookup src k = some v := by
  induction src with
  | nil => simp [hlookup] at h
  | cons p ps ih =>
    have hcons : hkeys (p :: ps) = p.1 :: hkeys ps := rfl
    rw [hcons] at hnd
    have hhd : p.1 ∉ hkeys ps := (List.nodup_cons.mp hnd).1
    have hnd' : (hkeys ps).Nodup := (List.nodup_cons.mp hnd).2
    rw [List.filter_cons] at h
    by_cases hp : pred p = true
    · rw [if_pos hp] at h
      unfold hlookup at h ⊢
      rw [List.find?_cons] at h ⊢
      cases hpe : (p.1 == k) with
      | true => rw [hpe] at h; exact h
      | false =>
        rw [hpe] at h
        exact ih hnd' h
    · rw [if_neg hp] at h
      have hik := ih hnd' h
      have hkmem : k ∈ hkeys ps := hlookup_mem_keys ps k v hik
      have hpe : (p.1 == k) = false := by
        simp only [beq_eq_false_iff_ne, ne_eq]
        intro hc
        exact hhd (hc ▸ hkmem)
      unfold hlookup at hik ⊢
      rw [List.find?_cons, hpe]
      exact hik

theorem hkeys_filter_subset (pred : String × List String → Bool) (src : HMap) (k : String)
    (h : k ∈ hkeys (src.filter pred)) : k ∈ hkeys src := by
  rcases List.mem_map.mp h with ⟨p, hp, rfl⟩
  exact List.mem_map.mpr ⟨p, List.mem_of_mem_filter hp, rfl⟩

/-- C6: for an upstream header mapping (Go map: distinct keys, canonical as
produced by `net/http`), the client-visible output of
`filterResponseHeaders` contains only names of the fixed response
allow-set, every surviving binding keeps its upstream values unchanged, the
output's keys are a subset of the upstream's, and `Set-Cookie` (in any
casing) is absent. -/
theorem filterResponseHeaders_projection (src : HMap)
    (hnd : (hkeys src).Nodup)
    (hcanon : ∀ k, k ∈ hkeys src → canonicalHeaderKey k = k) :
    (∀ k, k ∈ hkeys (filterResponseHeaders src) → k ∈ forwardableResponseHeaders) ∧
    (∀ k v, hlookup (filterResponseHeaders src) k = some v → hlookup src k = some v) ∧
    (∀ k, k ∈ hkeys (filterResponseHeaders src) → k ∈ hkeys src) ∧
    hlookup (filterResponseHeaders src) "Set-Cookie" = none ∧
    (∀ k, k ∈ hkeys (filterResponseHeaders src) → strLower k ≠ "set-cookie") := by
  have hEq : filterResponseHeaders src =
      src.filter (fun p => forwardableResponseHeaders.contains (canonicalHeaderKey p.1)) := by
    unfold filterResponseHeaders
    simpa using foldl_hset_filter
      (fun p => forwardableResponseHeaders.contains (canonicalHeaderKey p.1)) src hnd []
      (by intro k hk; simp [hkeys] at hk)
  have hmem : ∀ k, k ∈ hkeys (filterResponseHeaders src) → k ∈ forwardableResponseHeaders := by
    intro k hk
    rw [hEq] at hk
    rcases List.mem_map.mp hk with ⟨p, hp, rfl⟩
    have hpred := List.of_mem_filter hp
    have hmemsrc : p.1 ∈ hkeys src :=
      List.mem_map.mpr ⟨p, List.mem_of_mem_filter hp, rfl⟩
    rw [hcanon p.1 hmemsrc] at hpred
    simpa using hpred
  refine ⟨hmem, ?_, ?_, ?_, ?_⟩
  · intro k v hv
    rw [hEq] at hv
    exact hlookup_filter_nodup _ src hnd k v hv
  · intro k hk
    rw [hEq] at hk
    exact hkeys_filter_subset _ src k hk
  · cases hl : hlookup (filterResponseHeaders src) "Set-Cookie" with
    | none => rfl
    | some v =>
      exact absurd (hmem "Set-Cookie" (hlookup_mem_keys _ _ _ hl)) (by decide)
  · intro k hk
    have := hmem k hk
    simp only [forwardableResponseHeaders, List.mem_cons, List.not_mem_nil, or_false] at this
    rcases this with h | h | h | h | h | h <;> rw [h] <;> decide

/-- Witness for C6 on a concrete upstream mapping that carries `Set-Cookie`
and an internal debug header. -/
theorem filterResponseHeaders_projection_witness :
    hlookup (filterResponseHeaders
        [("Content-Type", ["application/json"]), ("Set-Cookie", ["session=abc"]),
         ("X-Internal-Debug", ["secret"])]) "Set-Cookie" = none ∧
    hlookup [("Content-Type", ["application/json"]), ("Set-Cookie", ["session=abc"]),
        ("X-Internal-Debug", ["secret"])] "Content-Type" = some ["application/json"] :=
  ⟨(filterResponseHeaders_projection
      [("Content-Type", ["application/json"]), ("Set-Cookie", ["session=abc"]),
       ("X-Internal-Debug", ["secret"])] (by decide) (by decide)).2.2.2.1,
   (filterResponseHeaders_projection
      [("Content-Type", ["application/json"]), ("Set-Cookie", ["session=abc"]),
       ("X-Internal-Debug", ["secret"])] (by decide) (by decide)).2.1
     "Content-Type" ["application/json"] (by decide)⟩

/-! ## Claim C9: startup validation of the base URL -/

/-- C9: the startup pipeline (`config.validate`'s base-URL checks followed by
`NewProxyService`) fails exactly when the configured base URL string is
unparseable, its scheme is not `https`, or its hostname is outside the fixed
allow-set; on success the service holds exactly the parsed base URL. -/
theorem startup_base_url_validation (s : String) :
    ((startupBaseURL s).isOk = true ↔
      ∃ u, parseURL s = some u ∧ u.scheme = "https" ∧
        allowedUpstreamHosts.contains (hostnameOf u.host) = true) ∧
    (∀ u, startupBaseURL s = .ok u → parseURL s = some u) := by
  by_cases hs : s = ""
  · subst hs
    have hval : startupBaseURL "" = .error "upstream.base_url is required" := by rfl
    have hp : parseURL "" = some ⟨"", "", "", ""⟩ := by rfl
    rw [hval]
    constructor
    · constructor
      · intro h
        simp [Except.isOk, Except.toBool] at h
      · rintro ⟨u, hu, hsch, _⟩
        rw [hp, Option.some_inj] at hu
        rw [← hu] at hsch
        exact absurd hsch (by decide)
    · intro u hu
      simp at hu
  · cases hp : parseURL s with
    | none =>
      have hval : startupBaseURL s = .error "upstream.base_url is not a valid URL" := by
        simp [startupBaseURL, validateBaseURL, hs, hp]
      rw [hval]
      constructor
      · constructor
        · intro h
          simp [Except.isOk, Except.toBool] at h
        · rintro ⟨u, hu, _, _⟩
          exact absurd hu (by simp)
      · intro u hu
        simp at hu
    | some u =>
      by_cases hsch : u.scheme = "https"
      · by_cases hcont : allowedUpstreamHosts.contains (hostnameOf u.host) = true
        · have hcont' : hostnameOf u.host ∈ allowedUpstreamHosts := by simpa using hcont
          have hval : startupBaseURL s = .ok u := by
            simp [startupBaseURL, validateBaseURL, newProxyService, hs, hp, hsch, hcont']
          rw [hval]
          constructor
          · constructor
            · intro _
              exact ⟨u, rfl, hsch, hcont⟩
            · intro _
              rfl
          · intro u' hu'
            simp only [Except.ok.injEq] at hu'
            rw [hu']
        · have hcont' : hostnameOf u.host ∉ allowedUpstreamHosts := by simpa using hcont
          have hval : startupBaseURL s =
              .error "upstream host is not in the allowlist" := by
            simp [startupBaseURL, validateBaseURL, newProxyService, hs, hp, hsch, hcont']
          rw [hval]
          constructor
          · constructor
            · intro h
              simp [Except.isOk, Except.toBool] at h
            · rintro ⟨u', hu', _, hcont2⟩
              have huu : u = u' := Option.some_inj.mp hu'
              rw [← huu] at hcont2
              exact absurd hcont2 hcont
          · intro u' hu'
            simp at hu'
      · have hval : startupBaseURL s = .error "upstream.base_url must use HTTPS" := by
          simp [startupBaseURL, validateBaseURL, hs, hp, hsch]
        rw [hval]
        constructor
        · constructor
          · intro h
            simp [Except.isOk, Except.toBool] at h
          · rintro ⟨u', hu', hsch2, _⟩
            have huu : u = u' := Option.some_inj.mp hu'
            rw [← huu] at hsch2
            exact absurd hsch2 hsch
        · intro u' hu'
          simp at hu'

/-- Witness for C9: the production configuration URL passes startup
validation and yields the parsed base URL. -/
theorem startup_base_url_validation_witness :
    parseURL "https://vulners.com" = some ⟨"https", "vulners.com", "", ""⟩ :=
  (startup_base_url_validation "https://vulners.com").2 ⟨"https", "vulners.com", "", ""⟩
    (by rfl)

/-! ## Claim C2: credential-shaped query parameters survive `buildUpstreamURL`

The spec (and the repository's own `TestBuildUpstreamURL` cases "apikey
lowercase stripped", "APIKEY uppercase stripped", ...) require every
case/underscore variant of `apikey` to be dropped from the inbound query.
The code copies every inbound parameter and only `q.Set("apiKey", ...)`
replaces the exact-case `apiKey` binding, so other variants survive. -/

/-- C2 (evaluation of the code at the failing input): for the inbound query
`APIKEY=evil&query=test` the rebuilt URL re-parses to the same path and
carries exactly one `apiKey` parameter with the resolved credential, but the
client-supplied case variant `APIKEY=evil` survives; and for the repository
test's own input `apikey=secret&query=test` the rebuilt raw query is not the
`query=test` the test demands. -/
theorem buildUpstreamURL_variant_survives :
    (∃ u q, parseURL (buildUpstreamURL ⟨"https", "vulners.com", "", ""⟩
        "/api/v3/search/lucene/" [("APIKEY", ["evil"]), ("query", ["test"])] "goodkey")
          = some u ∧
      u.path = "/api/v3/search/lucene/" ∧ parseQuery u.rawQuery = some q ∧
      hlookup q "apiKey" = some ["goodkey"] ∧
      hlookup q "query" = some ["test"] ∧
      hlookup q "APIKEY" = some ["evil"] ∧
      strLower "APIKEY" = strLower "apiKey") ∧
    (∃ u, parseURL (buildUpstreamURL ⟨"https", "vulners.com", "", ""⟩
        "/api/v3/search/lucene/" [("apikey", ["secret"]), ("query", ["test"])] "goodkey")
          = some u ∧
      u.rawQuery ≠ "query=test" ∧ hlookup (qappend [] "apikey" "secret") "apikey" ≠ none) := by
  refine ⟨⟨⟨"https", "vulners.com", "/api/v3/search/lucene/",
      "APIKEY=evil&apiKey=goodkey&query=test"⟩,
    [("APIKEY", ["evil"]), ("apiKey", ["goodkey"]), ("query", ["test"])],
    by decide, by decide, by decide, by decide, by decide, by decide, by decide⟩,
    ⟨⟨"https", "vulners.com", "/api/v3/search/lucene/",
      "apiKey=goodkey&apikey=secret&query=test"⟩, by decide, by decide, by decide⟩⟩

/-! ## Claim C10: `Forward` mutates neither its inputs nor the snapshot -/

theorem swrite_maps_ne (st : Store) (t : Nat) (m : HMap) (r : Nat) (hr : r ≠ t) :
    (swrite st t m).maps r = st.maps r := by
  unfold swrite
  simp [hr]

theorem swrite_next (st : Store) (t : Nat) (m : HMap) : (swrite st t m).next = st.next := rfl

theorem swrite_base (st : Store) (t : Nat) (m : HMap) : (swrite st t m).base = st.base := rfl

theorem alloc_maps_ne (st : Store) (r : Nat) (hr : r ≠ st.next) :
    ((alloc st).1).maps r = st.maps r := by
  unfold alloc
  simp [hr]

theorem alloc_next (st : Store) : ((alloc st).1).next = st.next + 1 := rfl

theorem alloc_base (st : Store) : ((alloc st).1).base = st.base := rfl

theorem alloc_ref (st : Store) : (alloc st).2 = st.next := rfl

theorem foldl_store_frame {α : Type} (f : Store → α → Store) (dst : Nat) (l : List α)
    (hf : ∀ st a, (∀ r, r ≠ dst → (f st a).maps r = st.maps r) ∧ (f st a).next = st.next ∧
      (f st a).base = st.base) (st : Store) :
    (∀ r, r ≠ dst → (l.foldl f st).maps r = st.maps r) ∧ (l.foldl f st).next = st.next ∧
    (l.foldl f st).base = st.base := by
  induction l generalizing st with
  | nil => exact ⟨fun r _ => rfl, rfl, rfl⟩
  | cons a l ih =>
    rw [List.foldl_cons]
    refine ⟨?_, ?_, ?_⟩
    · intro r hr
      rw [(ih (f st a)).1 r hr, (hf st a).1 r hr]
    · rw [(ih (f st a)).2.1, (hf st a).2.1]
    · rw [(ih (f st a)).2.2, (hf st a).2.2]

theorem filterRequestHeadersS_frame (st : Store) (srcRef : Nat) :
    (∀ r, r < st.next → ((filterRequestHeadersS st srcRef).1).maps r = st.maps r) ∧
    st.next ≤ ((filterRequestHeadersS st srcRef).1).next ∧
    ((filterRequestHeadersS st srcRef).1).base = st.base := by
  have hf1 := foldl_store_frame
    (fun st2 key =>
      if (headerValues (st2.maps srcRef) key).length > 0 then
        swrite st2 (alloc st).2
          (hset (st2.maps (alloc st).2) (canonicalHeaderKey key) (headerValues (st2.maps srcRef) key))
      else st2) (alloc st).2 forwardableRequestHeaders
    (by
      intro st2 a
      refine ⟨?_, ?_, ?_⟩
      · intro r hr
        by_cases hc : (headerValues (st2.maps srcRef) a).length > 0
        · simp only [if_pos hc]
          exact swrite_maps_ne _ _ _ r hr
        · simp only [if_neg hc]
      · by_cases hc : (headerValues (st2.maps srcRef) a).length > 0
        · simp only [if_pos hc, swrite_next]
        · simp only [if_neg hc]
      · by_cases hc : (headerValues (st2.maps srcRef) a).length > 0
        · simp only [if_pos hc, swrite_base]
        · simp only [if_neg hc]) (alloc st).1
  set mid1 := forwardableRequestHeaders.foldl
    (fun st2 key =>
      if (headerValues (st2.maps srcRef) key).length > 0 then
        swrite st2 (alloc st).2
          (hset (st2.maps (alloc st).2) (canonicalHeaderKey key) (headerValues (st2.maps srcRef) key))
      else st2) (alloc st).1 with hmid1
  have hf2 := foldl_store_frame
    (fun st2 p =>
      if "x-vulners-".data.isPrefixOf (strLower p.1).data then
        swrite st2 (alloc st).2 (hset (st2.maps (alloc st).2) (canonicalHeaderKey p.1) p.2)
      else st2) (alloc st).2 (mid1.maps srcRef)
    (by
      intro st2 a
      refine ⟨?_, ?_, ?_⟩
      · intro r hr
        by_cases hc : "x-vulners-".data.isPrefixOf (strLower a.1).data = true
        · simp only [if_pos hc]
          exact swrite_maps_ne _ _ _ r hr
        · simp only [if_neg hc]
      · by_cases hc : "x-vulners-".data.isPrefixOf (strLower a.1).data = true
        · simp only [if_pos hc, swrite_next]
        · simp only [if_neg hc]
      · by_cases hc : "x-vulners-".data.isPrefixOf (strLower a.1).data = true
        · simp only [if_pos hc, swrite_base]
        · simp only [if_neg hc]) mid1
  set mid2 := (mid1.maps srcRef).foldl
    (fun st2 p =>
      if "x-vulners-".data.isPrefixOf (strLower p.1).data then
        swrite st2 (alloc st).2 (hset (st2.maps (alloc st).2) (canonicalHeaderKey p.1) p.2)
      else st2) mid1 with hmid2
  have hval : filterRequestHeadersS st srcRef =
      (swrite mid2 (alloc st).2
        (hset (mid2.maps (alloc st).2) (canonicalHeaderKey "User-Agent") [userAgent]),
       (alloc st).2) := by
    rw [hmid2, hmid1]
    rfl
  rw [hval]
  have hne : ∀ r, r < st.next → r ≠ (alloc st).2 := by
    intro r hr
    rw [alloc_ref]
    omega
  refine ⟨?_, ?_, ?_⟩
  · intro r hr
    rw [swrite_maps_ne _ _ _ r (hne r hr), hf2.1 r (hne r hr), hf1.1 r (hne r hr),
      alloc_maps_ne st r (hne r hr)]
  · rw [swrite_next, hf2.2.1, hf1.2.1, alloc_next]
    omega
  · rw [swrite_base, hf2.2.2, hf1.2.2, alloc_base]

theorem filterResponseHeadersS_frame (st : Store) (src : HMap) :
    (∀ r, r < st.next → ((filterResponseHeadersS st src).1).maps r = st.maps r) ∧
    st.next ≤ ((filterResponseHeadersS st src).1).next ∧
    ((filterResponseHeadersS st src).1).base = st.base := by
  have hf1 := foldl_store_frame
    (fun st2 p =>
      if forwardableResponseHeaders.contains (canonicalHeaderKey p.1) then
        swrite st2 (alloc st).2 (hset (st2.maps (alloc st).2) p.1 p.2)
      else st2) (alloc st).2 src
    (by
      intro st2 a
      refine ⟨?_, ?_, ?_⟩
      · intro r hr
        by_cases hc : forwardableResponseHeaders.contains (canonicalHeaderKey a.1) = true
        · simp only [if_pos hc]
          exact swrite_maps_ne _ _ _ r hr
        · simp only [if_neg hc]
      · by_cases hc : forwardableResponseHeaders.contains (canonicalHeaderKey a.1) = true
        · simp only [if_pos hc, swrite_next]
        · simp only [if_neg hc]
      · by_cases hc : forwardableResponseHeaders.contains (canonicalHeaderKey a.1) = true
        · simp only [if_pos hc, swrite_base]
        · simp only [if_neg hc]) (alloc st).1
  have hval : filterResponseHeadersS st src =
      (src.foldl
        (fun st2 p =>
          if forwardableResponseHeaders.contains (canonicalHeaderKey p.1) then
            swrite st2 (alloc st).2 (hset (st2.maps (alloc st).2) p.1 p.2)
          else st2) (alloc st).1, (alloc st).2) := rfl
  rw [hval]
  have hne : ∀ r, r < st.next → r ≠ (alloc st).2 := by
    intro r hr
    rw [alloc_ref]
    omega
  refine ⟨?_, ?_, ?_⟩
  · intro r hr
    rw [hf1.1 r (hne r hr), alloc_maps_ne st r (hne r hr)]
  · rw [hf1.2.1, alloc_next]
    omega
  · rw [hf1.2.2, alloc_base]

theorem buildUpstreamURLS_frame (st : Store) (path : String) (qryRef : Nat) (apiKey : String) :
    (∀ r, r < st.next → ((buildUpstreamURLS st path qryRef apiKey).1).maps r = st.maps r) ∧
    st.next ≤ ((buildUpstreamURLS st path qryRef apiKey).1).next ∧
    ((buildUpstreamURLS st path qryRef apiKey).1).base = st.base := by
  have hf1 := foldl_store_frame
    (fun st2 p => swrite st2 (alloc st).2 (hset (st2.maps (alloc st).2) p.1 p.2))
    (alloc st).2 (((alloc st).1).maps qryRef)
    (by
      intro st2 a
      exact ⟨fun r hr => swrite_maps_ne _ _ _ r hr, swrite_next _ _ _, swrite_base _ _ _⟩)
    (alloc st).1
  set mid1 := (((alloc st).1).maps qryRef).foldl
    (fun st2 p => swrite st2 (alloc st).2 (hset (st2.maps (alloc st).2) p.1 p.2))
    (alloc st).1 with hmid1
  have hval : (buildUpstreamURLS st path qryRef apiKey).1 =
      swrite mid1 (alloc st).2 (hset (mid1.maps (alloc st).2) "apiKey" [apiKey]) := by
    rw [hmid1]
    rfl
  rw [hval]
  have hne : ∀ r, r < st.next → r ≠ (alloc st).2 := by
    intro r hr
    rw [alloc_ref]
    omega
  refine ⟨?_, ?_, ?_⟩
  · intro r hr
    rw [swrite_maps_ne _ _ _ r (hne r hr), hf1.1 r (hne r hr), alloc_maps_ne st r (hne r hr)]
  · rw [swrite_next, hf1.2.1, alloc_next]
    omega
  · rw [swrite_base, hf1.2.2, alloc_base]

/-- C10: `ForwardS` (the heap-instrumented `Forward`) preserves every map
reference that existed before the call — in particular the inbound request's
header and query mappings — and leaves the service's stored parsed base URL
unchanged, for every upstream outcome. -/
theorem forwardS_frame (st : Store) (cfgKey : String) (hdrRef qryRef : Nat) (path : String)
    (doStream : String → HMap → Except GoErr ProxyResp)
    (hh : hdrRef < st.next) (hq : qryRef < st.next) :
    ((ForwardS st cfgKey hdrRef qryRef path doStream).1).maps hdrRef = st.maps hdrRef ∧
    ((ForwardS st cfgKey hdrRef qryRef path doStream).1).maps qryRef = st.maps qryRef ∧
    (∀ r, r < st.next → ((ForwardS st cfgKey hdrRef qryRef path doStream).1).maps r = st.maps r) ∧
    ((ForwardS st cfgKey hdrRef qryRef path doStream).1).base = st.base := by
  have hmain : (∀ r, r < st.next →
      ((ForwardS st cfgKey hdrRef qryRef path doStream).1).maps r = st.maps r) ∧
      ((ForwardS st cfgKey hdrRef qryRef path doStream).1).base = st.base := by
    unfold ForwardS
    by_cases hk : (resolveAPIKey cfgKey (st.maps hdrRef) == "") = true
    · simp only [hk, if_pos]
      exact ⟨fun r _ => trivial, trivial⟩
    · simp only [hk, Bool.false_eq_true, if_neg, not_false_iff]
      have hb := buildUpstreamURLS_frame st path qryRef (resolveAPIKey cfgKey (st.maps hdrRef))
      set stb := (buildUpstreamURLS st path qryRef (resolveAPIKey cfgKey (st.maps hdrRef))).1
        with hstb
      have hf := filterRequestHeadersS_frame stb hdrRef
      set stf := (filterRequestHeadersS stb hdrRef).1 with hstf
      cases hds : doStream (buildUpstreamURLS st path qryRef
          (resolveAPIKey cfgKey (st.maps hdrRef))).2
          (stf.maps (filterRequestHeadersS stb hdrRef).2) with
      | error e =>
        refine ⟨?_, ?_⟩
        · intro r hr
          rw [hf.1 r (Nat.lt_of_lt_of_le hr hb.2.1), hb.1 r hr]
        · rw [hf.2.2, hb.2.2]
      | ok resp =>
        have hg := filterResponseHeadersS_frame stf resp.header
        refine ⟨?_, ?_⟩
        · intro r hr
          rw [hg.1 r (Nat.lt_of_lt_of_le (Nat.lt_of_lt_of_le hr hb.2.1) hf.2.1),
            hf.1 r (Nat.lt_of_lt_of_le hr hb.2.1), hb.1 r hr]
        · rw [hg.2.2, hf.2.2, hb.2.2]
  exact ⟨hmain.1 hdrRef hh, hmain.1 qryRef hq, hmain.1, hmain.2⟩

/-- Witness for C10: a two-reference store holding a concrete request; the
call leaves both inbound maps (checked via the universally framed reference
0) untouched. -/
theorem forwardS_frame_witness :
    ((ForwardS ⟨fun i => if i == 0 then [("X-Api-Key", ["k"])] else [("query", ["q"])], 2,
        ⟨"https", "vulners.com", "", ""⟩⟩ "cfg" 0 1 "/api/v3/x"
        (fun _ _ => .ok ⟨200, []⟩)).1).maps 0
      = (⟨fun i => if i == 0 then [("X-Api-Key", ["k"])] else [("query", ["q"])], 2,
        ⟨"https", "vulners.com", "", ""⟩⟩ : Store).maps 0 :=
  (forwardS_frame ⟨fun i => if i == 0 then [("X-Api-Key", ["k"])] else [("query", ["q"])], 2,
      ⟨"https", "vulners.com", "", ""⟩⟩ "cfg" 0 1 "/api/v3/x"
      (fun _ _ => .ok ⟨200, []⟩) (by decide) (by decide)).1

/-! ## Claim C7: `sanitizeError` redacts every credential token

Basic structure of the scan. -/

theorem matchesAt_iff (l : List Char) :
    matchesAt l = true ↔
      (l.take 7).map Char.toLower = apikeyLit ∧
        ∃ c rest, l.drop 7 = c :: rest ∧ isTokenChar c = true := by
  unfold matchesAt
  rw [Bool.and_eq_true, beq_iff_eq]
  constructor
  · rintro ⟨h1, h2⟩
    refine ⟨h1, ?_⟩
    cases hd : l.drop 7 with
    | nil => rw [hd] at h2; exact absurd h2 (by simp)
    | cons c rest =>
      rw [hd] at h2
      exact ⟨c, rest, rfl, h2⟩
  · rintro ⟨h1, c, rest, hd, ht⟩
    refine ⟨h1, ?_⟩
    rw [hd]
    exact ht

theorem matchesAt_length (l : List Char) (h : matchesAt l = true) : 8 ≤ l.length := by
  rcases (matchesAt_iff l).mp h with ⟨_, c, rest, hd, _⟩
  have := congrArg List.length hd
  simp only [List.length_drop, List.length_cons] at this
  omega

theorem sanitizeFuel_irrel : ∀ (n m : Nat) (l : List Char),
    l.length ≤ n → l.length ≤ m → sanitizeFuel n l = sanitizeFuel m l := by
  intro n
  induction n with
  | zero =>
    intro m l hn _
    have hnil : l = [] := List.eq_nil_of_length_eq_zero (Nat.le_zero.mp hn)
    subst hnil
    cases m <;> rfl
  | succ n ih =>
    intro m l hn hm
    cases l with
    | nil => cases m <;> rfl
    | cons c cs =>
      cases m with
      | zero => simp at hm
      | succ m' =>
        have hlen : cs.length ≤ n := by
          simp only [List.length_cons] at hn
          omega
        have hlen' : cs.length ≤ m' := by
          simp only [List.length_cons] at hm
          omega
        have hrest : (((c :: cs).drop 7).dropWhile isTokenChar).length ≤ cs.length := by
          have h1 := (List.dropWhile_suffix (l := (c :: cs).drop 7) isTokenChar).length_le
          simp only [List.length_drop, List.length_cons] at h1
          omega
        by_cases hmt : matchesAt (c :: cs) = true
        · simp only [sanitizeFuel, hmt, if_pos]
          rw [ih m' (((c :: cs).drop 7).dropWhile isTokenChar)
            (Nat.le_trans hrest hlen) (Nat.le_trans hrest hlen')]
        · rw [Bool.not_eq_true] at hmt
          simp only [sanitizeFuel, hmt, Bool.false_eq_true, if_neg, not_false_iff]
          rw [ih m' cs hlen hlen']

theorem noRawFuel_irrel : ∀ (n m : Nat) (l : List Char),
    l.length ≤ n → l.length ≤ m → noRawFuel n l = noRawFuel m l := by
  intro n
  induction n with
  | zero =>
    intro m l hn _
    have hnil : l = [] := List.eq_nil_of_length_eq_zero (Nat.le_zero.mp hn)
    subst hnil
    cases m <;> rfl
  | succ n ih =>
    intro m l hn hm
    cases l with
    | nil => cases m <;> rfl
    | cons c cs =>
      cases m with
      | zero => simp at hm
      | succ m' =>
        have hlen : cs.length ≤ n := by
          simp only [List.length_cons] at hn
          omega
        have hlen' : cs.length ≤ m' := by
          simp only [List.length_cons] at hm
          omega
        have hrest : (((c :: cs).drop 7).dropWhile isTokenChar).length ≤ cs.length := by
          have h1 := (List.dropWhile_suffix (l := (c :: cs).drop 7) isTokenChar).length_le
          simp only [List.length_drop, List.length_cons] at h1
          omega
        by_cases hmt : matchesAt (c :: cs) = true
        · simp only [noRawFuel, hmt, if_pos]
          rw [ih m' (((c :: cs).drop 7).dropWhile isTokenChar)
            (Nat.le_trans hrest hlen) (Nat.le_trans hrest hlen')]
        · rw [Bool.not_eq_true] at hmt
          simp only [noRawFuel, hmt, Bool.false_eq_true, if_neg, not_false_iff]
          rw [ih m' cs hlen hlen']

theorem sanitizeChars_cons_pos (c : Char) (cs : List Char) (h : matchesAt (c :: cs) = true) :
    sanitizeChars (c :: cs) = (c :: cs).take 7 ++ redactedMarker ++
      sanitizeChars (((c :: cs).drop 7).dropWhile isTokenChar) := by
  show sanitizeFuel (c :: cs).length (c :: cs) = _
  have hrest : (((c :: cs).drop 7).dropWhile isTokenChar).length ≤ cs.length := by
    have h1 := (List.dropWhile_suffix (l := (c :: cs).drop 7) isTokenChar).length_le
    simp only [List.length_drop, List.length_cons] at h1
    omega
  simp only [List.length_cons, sanitizeFuel, h, if_pos]
  rw [sanitizeFuel_irrel cs.length (((c :: cs).drop 7).dropWhile isTokenChar).length
    (((c :: cs).drop 7).dropWhile isTokenChar) hrest (Nat.le_refl _)]
  rfl

theorem sanitizeChars_cons_neg (c : Char) (cs : List Char) (h : matchesAt (c :: cs) = false) :
    sanitizeChars (c :: cs) = c :: sanitizeChars cs := by
  show sanitizeFuel (c :: cs).length (c :: cs) = _
  simp only [List.length_cons, sanitizeFuel, h, Bool.false_eq_true, if_neg, not_false_iff]
  rfl

theorem noRawCredential_cons_pos (c : Char) (cs : List Char) (h : matchesAt (c :: cs) = true) :
    noRawCredential (c :: cs) = ((((c :: cs).drop 7).takeWhile isTokenChar == redactedMarker) &&
      noRawCredential (((c :: cs).drop 7).dropWhile isTokenChar)) := by
  show noRawFuel (c :: cs).length (c :: cs) = _
  have hrest : (((c :: cs).drop 7).dropWhile isTokenChar).length ≤ cs.length := by
    have h1 := (List.dropWhile_suffix (l := (c :: cs).drop 7) isTokenChar).length_le
    simp only [List.length_drop, List.length_cons] at h1
    omega
  simp only [List.length_cons, noRawFuel, h, if_pos]
  rw [noRawFuel_irrel cs.length (((c :: cs).drop 7).dropWhile isTokenChar).length
    (((c :: cs).drop 7).dropWhile isTokenChar) hrest (Nat.le_refl _)]
  rfl

theorem noRawCredential_cons_neg (c : Char) (cs : List Char) (h : matchesAt (c :: cs) = false) :
    noRawCredential (c :: cs) = noRawCredential cs := by
  show noRawFuel (c :: cs).length (c :: cs) = _
  simp only [List.length_cons, noRawFuel, h, Bool.false_eq_true, if_neg, not_false_iff]
  rfl

theorem nonToken_toLower_ne_a (c : Char) (h : isTokenChar c = false) : c.toLower ≠ 'a' := by
  unfold isTokenChar at h
  rw [Bool.not_eq_false'] at h
  simp only [Bool.or_eq_true, beq_iff_eq] at h
  have h7 : c = '&' ∨ c = '"' ∨ c = '\t' ∨ c = '\n' ∨ c = '\x0c' ∨ c = '\x0d' ∨ c = ' ' := by
    tauto
  rcases h7 with h | h | h | h | h | h | h <;> subst h <;> decide

theorem matchesAt_false_of_lower_ne (c : Char) (cs : List Char) (h : c.toLower ≠ 'a') :
    matchesAt (c :: cs) = false := by
  rw [Bool.eq_false_iff]
  intro hm
  rcases (matchesAt_iff _).mp hm with ⟨h1, _⟩
  rw [List.take_succ_cons, List.map_cons] at h1
  have := congrArg List.head? h1
  simp only [List.head?_cons, apikeyLit] at this
  exact h (Option.some_inj.mp this)

theorem takeWhile_all_append (p : Char → Bool) (l1 l2 : List Char)
    (h : ∀ c ∈ l1, p c = true) :
    (l1 ++ l2).takeWhile p = l1 ++ l2.takeWhile p := by
  induction l1 with
  | nil => simp
  | cons c cs ih =>
    rw [List.cons_append, List.takeWhile_cons_of_pos (h c (List.mem_cons_self _ _)),
      ih (fun c hc => h c (List.mem_cons_of_mem _ hc))]
    rfl

theorem dropWhile_all_append (p : Char → Bool) (l1 l2 : List Char)
    (h : ∀ c ∈ l1, p c = true) :
    (l1 ++ l2).dropWhile p = l2.dropWhile p := by
  induction l1 with
  | nil => simp
  | cons c cs ih =>
    rw [List.cons_append, List.dropWhile_cons_of_pos (h c (List.mem_cons_self _ _)),
      ih (fun c hc => h c (List.mem_cons_of_mem _ hc))]

theorem dropWhile_head_not (l : List Char) :
    l.dropWhile isTokenChar = [] ∨
      ∃ d rs, l.dropWhile isTokenChar = d :: rs ∧ isTokenChar d = false := by
  induction l with
  | nil => exact Or.inl rfl
  | cons c cs ih =>
    by_cases hc : isTokenChar c = true
    · rw [List.dropWhile_cons_of_pos hc]
      exact ih
    · rw [List.dropWhile_cons_of_neg hc]
      exact Or.inr ⟨c, cs, rfl, Bool.not_eq_true _ ▸ hc⟩

theorem sanitize_head_eq (u : List Char) (d : Char) (t : List Char)
    (h : sanitizeChars u = d :: t) (hd : d.toLower ≠ 'a') :
    ∃ u', u = d :: u' ∧ sanitizeChars u' = t := by
  cases u with
  | nil => exact absurd h (by simp [sanitizeChars, sanitizeFuel])
  | cons c cs =>
    by_cases hm : matchesAt (c :: cs) = true
    · exfalso
      rw [sanitizeChars_cons_pos c cs hm] at h
      rcases (matchesAt_iff _).mp hm with ⟨h1, _⟩
      rw [List.take_succ_cons, List.map_cons] at h1
      have hc : c.toLower = 'a' := by
        have := congrArg List.head? h1
        simp only [List.head?_cons, apikeyLit] at this
        exact Option.some_inj.mp this
      rw [List.take_succ_cons, List.cons_append, List.cons_append] at h
      have : c = d := (List.cons.injEq _ _ _ _).mp h |>.1
      rw [← this] at hd
      exact hd hc
    · rw [Bool.not_eq_true] at hm
      rw [sanitizeChars_cons_neg c cs hm] at h
      have hcd : c = d := (List.cons.injEq _ _ _ _).mp h |>.1
      have hts : sanitizeChars cs = t := (List.cons.injEq _ _ _ _).mp h |>.2
      exact ⟨cs, by rw [hcd], hts⟩

theorem sanitize_peel (w : List Char) (u t : List Char)
    (h : sanitizeChars u = w ++ t) (hw : ∀ d ∈ w, d.toLower ≠ 'a') :
    ∃ u', u = w ++ u' ∧ sanitizeChars u' = t := by
  induction w generalizing u with
  | nil => exact ⟨u, rfl, by simpa using h⟩
  | cons d w' ih =>
    rw [List.cons_append] at h
    rcases sanitize_head_eq u d (w' ++ t) h (hw d (List.mem_cons_self _ _)) with ⟨u1, hu1, hs1⟩
    rcases ih u1 hs1 (fun d hd => hw d (List.mem_cons_of_mem _ hd)) with ⟨u', hu', hs'⟩
    exact ⟨u', by rw [hu1, hu', List.cons_append], hs'⟩

theorem sanitize_structure_of_nontoken (u : List Char)
    (h : u = [] ∨ ∃ d us, u = d :: us ∧ isTokenChar d = false) :
    sanitizeChars u = [] ∨
      ∃ d t, sanitizeChars u = d :: t ∧ isTokenChar d = false := by
  rcases h with h | ⟨d, us, rfl, hd⟩
  · subst h
    exact Or.inl rfl
  · have hm : matchesAt (d :: us) = false :=
      matchesAt_false_of_lower_ne d us (nonToken_toLower_ne_a d hd)
    rw [sanitizeChars_cons_neg d us hm]
    exact Or.inr ⟨d, sanitizeChars us, rfl, hd⟩

theorem redactedMarker_tokens : ∀ c ∈ redactedMarker, isTokenChar c = true := by decide

theorem noRaw_sanitize_aux : ∀ (n : Nat) (s : List Char), s.length ≤ n →
    noRawCredential (sanitizeChars s) = true := by
  intro n
  induction n with
  | zero =>
    intro s hs
    have hnil : s = [] := List.eq_nil_of_length_eq_zero (Nat.le_zero.mp hs)
    subst hnil
    rfl
  | succ n ih =>
    intro s hs
    cases s with
    | nil => rfl
    | cons c cs =>
      have hcslen : cs.length ≤ n := by
        simp only [List.length_cons] at hs
        omega
      by_cases hm : matchesAt (c :: cs) = true
      · have h8 : 8 ≤ (c :: cs).length := matchesAt_length _ hm
        have hpre7 : ((c :: cs).take 7).length = 7 := by
          rw [List.length_take]
          simp only [List.length_cons] at h8 ⊢
          omega
        have hrestlen : (((c :: cs).drop 7).dropWhile isTokenChar).length ≤ n := by
          have h1 := (List.dropWhile_suffix (l := (c :: cs).drop 7) isTokenChar).length_le
          simp only [List.length_drop, List.length_cons] at h1
          omega
        have htstruct := sanitize_structure_of_nontoken
          (((c :: cs).drop 7).dropWhile isTokenChar) (dropWhile_head_not ((c :: cs).drop 7))
        rw [sanitizeChars_cons_pos c cs hm]
        set t := sanitizeChars (((c :: cs).drop 7).dropWhile isTokenChar) with ht
        -- the output starts with the matched 7 characters
        have hpremap : (((c :: cs).take 7).map Char.toLower) = apikeyLit :=
          ((matchesAt_iff _).mp hm).1
        have hout : (c :: cs).take 7 ++ redactedMarker ++ t =
            c :: (cs.take 6 ++ (redactedMarker ++ t)) := by
          rw [List.take_succ_cons, List.cons_append, List.cons_append, List.append_assoc]
        have htake : (c :: (cs.take 6 ++ (redactedMarker ++ t))).take 7 = (c :: cs).take 7 := by
          rw [← hout, List.append_assoc]
          exact List.take_left' hpre7
        have hdrop : (c :: (cs.take 6 ++ (redactedMarker ++ t))).drop 7 = redactedMarker ++ t := by
          rw [← hout, List.append_assoc]
          exact List.drop_left' hpre7
        have hm2 : matchesAt (c :: (cs.take 6 ++ (redactedMarker ++ t))) = true := by
          apply (matchesAt_iff _).mpr
          refine ⟨by rw [htake]; exact hpremap, ?_⟩
          refine ⟨'[', ('R' :: 'E' :: 'D' :: 'A' :: 'C' :: 'T' :: 'E' :: 'D' :: ']' :: []) ++ t, ?_, by decide⟩
          rw [hdrop]
          rfl
        rw [hout, noRawCredential_cons_pos _ _ hm2, hdrop]
        have htw : (redactedMarker ++ t).takeWhile isTokenChar = redactedMarker := by
          rw [takeWhile_all_append _ _ _ redactedMarker_tokens]
          rcases htstruct with h | ⟨d, t', hdt, hd⟩
          · rw [h]
            simp
          · rw [hdt, List.takeWhile_cons_of_neg (by simp [hd])]
            simp
        have hdw : (redactedMarker ++ t).dropWhile isTokenChar = t := by
          rw [dropWhile_all_append _ _ _ redactedMarker_tokens]
          rcases htstruct with h | ⟨d, t', hdt, hd⟩
          · rw [h]
            rfl
          · rw [hdt, List.dropWhile_cons_of_neg (by simp [hd])]
        rw [htw, hdw]
        have hnr : noRawCredential t = true := by
          rw [ht]
          exact ih _ hrestlen
        rw [hnr]
        simp
      · rw [Bool.not_eq_true] at hm
        rw [sanitizeChars_cons_neg c cs hm]
        set t := sanitizeChars cs with ht
        by_cases hm2 : matchesAt (c :: t) = true
        · exfalso
          rcases (matchesAt_iff _).mp hm2 with ⟨h1, e, er, hdropt, het⟩
          rw [List.take_succ_cons, List.map_cons] at h1
          have hc : c.toLower = 'a' := by
            have := congrArg List.head? h1
            simp only [List.head?_cons, apikeyLit] at this
            exact Option.some_inj.mp this
          have hw : (t.take 6).map Char.toLower = ['p', 'i', 'k', 'e', 'y', '='] := by
            have := congrArg List.tail h1
            simpa only [List.tail_cons, apikeyLit] using this
          rw [List.drop_succ_cons] at hdropt
          have ht7 : 7 ≤ t.length := by
            have := congrArg List.length hdropt
            simp only [List.length_drop, List.length_cons] at this
            omega
          have hw6 : (t.take 6).length = 6 := by
            rw [List.length_take]
            omega
          have hwne : ∀ d ∈ t.take 6, d.toLower ≠ 'a' := by
            intro d hd had
            have hmem : d.toLower ∈ ['p', 'i', 'k', 'e', 'y', '='] := by
              rw [← hw]
              exact List.mem_map_of_mem _ hd
            rw [had] at hmem
            exact absurd hmem (by decide)
          have hsplit : sanitizeChars cs = t.take 6 ++ t.drop 6 := by
            rw [← ht, List.take_append_drop]
          rcases sanitize_peel (t.take 6) cs (t.drop 6) hsplit hwne with ⟨cs6, hcs, hscs6⟩
          have hcstake : cs.take 6 = t.take 6 := by
            rw [hcs]
            exact List.take_left' hw6
          have hcsdrop : cs.drop 6 = cs6 := by
            rw [hcs]
            exact List.drop_left' hw6
          have hmatchA : ((c :: cs).take 7).map Char.toLower = apikeyLit := by
            rw [List.take_succ_cons, List.map_cons, hcstake, hw, hc]
            rfl
          have hnomatch : ¬ ∃ e' er', (c :: cs).drop 7 = e' :: er' ∧ isTokenChar e' = true := by
            intro ⟨e', er', hd', het'⟩
            have : matchesAt (c :: cs) = true := (matchesAt_iff _).mpr ⟨hmatchA, e', er', hd', het'⟩
            rw [hm] at this
            exact absurd this (by simp)
          rw [List.drop_succ_cons, hcsdrop] at hnomatch
          cases hcs6 : cs6 with
          | nil =>
            rw [hcs6] at hscs6
            rw [hdropt] at hscs6
            exact absurd hscs6.symm (by simp [sanitizeChars, sanitizeFuel])
          | cons d rs =>
            by_cases hd : isTokenChar d = true
            · exact hnomatch ⟨d, rs, by rw [hcs6], hd⟩
            · rw [Bool.not_eq_true] at hd
              have hmf : matchesAt (d :: rs) = false :=
                matchesAt_false_of_lower_ne d rs (nonToken_toLower_ne_a d hd)
              rw [hcs6, sanitizeChars_cons_neg d rs hmf, hdropt] at hscs6
              have hde : d = e := (List.cons.injEq _ _ _ _).mp hscs6 |>.1
              rw [hde] at hd
              rw [het] at hd
              exact absurd hd (by simp)
        · rw [Bool.not_eq_true] at hm2
          rw [noRawCredential_cons_neg _ _ hm2, ht]
          exact ih _ hcslen

/-- C7: in the output of `sanitizeError`, every credential-shaped fragment —
the key name `apiKey` (case-insensitively) followed by `=` and a token — has
exactly the marker `[REDACTED]` as its token, for every input string; on
concrete messages the key name keeps its original casing, the token is
replaced, and all surrounding text survives unchanged. -/
theorem sanitizeError_redacts :
    (∀ s : List Char, noRawCredential (sanitizeChars s) = true) ∧
    sanitizeError "Get \"https://vulners.com/api?apiKey=SECRET123&q=x\": dial error" =
      "Get \"https://vulners.com/api?apiKey=[REDACTED]&q=x\": dial error" ∧
    sanitizeError "lookup apikey=s3cr3t APIKEY=other" =
      "lookup apikey=[REDACTED] APIKEY=[REDACTED]" := by
  refine ⟨fun s => noRaw_sanitize_aux s.length s (Nat.le_refl _), ?_, ?_⟩ <;> rfl
